import Mathlib

/-!
Verification of the line-geometry core of the embedded-graphics repository
(Point/Line data model, integer segment intersection, Bresenham stepper,
parallel-offset extents engine, and the polyline joint builder).

Machine integers (`i32`, `u32`) are modelled as `Int`/`Nat`; the design
documents place arithmetic overflow outside the contract (the implementer
must pick widths that make overflow unreachable), so the embedding uses
unbounded integers. Rust signed division truncates toward zero, which is
`Int.tdiv`, not the Euclidean `/` of `Int`.
-/

/-- 2D integer coordinate, from `geometry::Point` (fields `x`, `y` are `i32`). -/
structure Point where
  x : Int
  y : Int
deriving DecidableEq, Repr

instance : Add Point := ⟨fun p q => ⟨p.x + q.x, p.y + q.y⟩⟩

instance : Sub Point := ⟨fun p q => ⟨p.x - q.x, p.y - q.y⟩⟩

instance : Neg Point := ⟨fun p => ⟨-p.x, -p.y⟩⟩

theorem Point.add_def (p q : Point) : p + q = ⟨p.x + q.x, p.y + q.y⟩ := rfl

theorem Point.sub_def (p q : Point) : p - q = ⟨p.x - q.x, p.y - q.y⟩ := rfl

/-- Unsigned 2D extent, from `geometry::Size` (fields are `u32`; the values
stored by the code here are always nonnegative, so they are modelled as `Int`). -/
structure Size where
  width : Int
  height : Int
deriving DecidableEq, Repr

/-- Axis-aligned rectangle, from `primitives::Rectangle` (top-left corner plus size). -/
structure Rectangle where
  top_left : Point
  size : Size
deriving DecidableEq, Repr

/-- Line primitive, from `primitives/line/mod.rs` lines 48-55. -/
structure Line where
  start : Point
  «end» : Point
deriving DecidableEq, Repr

/-- Check signs of two signed numbers, from `line/mod.rs` lines 71-76.
The source computes `a ^ b >= 0` on `i32`: the XOR of two two-complement
integers is nonnegative exactly when their sign bits agree, i.e. when
`a < 0` and `b < 0` have the same truth value. -/
def same_signs (a b : Int) : Bool :=
  decide (a < 0) == decide (b < 0)

/-- Coefficient `a` of the infinite line `a*x + b*y + c = 0` through a segment:
`a1 = y2 - y1` (`line/mod.rs` line 120). -/
def lineA (l : Line) : Int := l.«end».y - l.start.y

/-- Coefficient `b`: `b1 = x1 - x2` (`line/mod.rs` line 121). -/
def lineB (l : Line) : Int := l.start.x - l.«end».x

/-- Coefficient `c`: `c1 = x2 * y1 - x1 * y2` (`line/mod.rs` line 122). -/
def lineC (l : Line) : Int := l.«end».x * l.start.y - l.start.x * l.«end».y

/-- `denom = a1 * b2 - a2 * b1` (`line/mod.rs` line 129). -/
def lineDenom (self other : Line) : Int :=
  lineA self * lineB other - lineA other * lineB self

/-- Sign value of a point against a line: `a * x + b * y + c`
(`line/mod.rs` lines 137-142 compute these as `r1`..`r4`). -/
def lineR (l : Line) (p : Point) : Int :=
  lineA l * p.x + lineB l * p.y + lineC l

/-- One disjunct of the flag at `line/mod.rs` lines 152-153: both endpoints of
`o` have the same nonzero sign value against the infinite line through `s`,
i.e. they lie strictly on the same side of it. -/
def bothOnSameSide (s o : Line) : Bool :=
  (lineR s o.start != 0) && (lineR s o.«end» != 0) &&
    same_signs (lineR s o.start) (lineR s o.«end»)

/-- The `is_on_segments` flag exactly as computed at `line/mod.rs` lines 152-153:
`(r3 != 0 && r4 != 0 && same_signs(r3, r4)) || (r1 != 0 && r2 != 0 && same_signs(r1, r2))`. -/
def isOnSegments (self other : Line) : Bool :=
  bothOnSameSide self other || bothOnSameSide other self

/-- Numerator of the x coordinate: `b1 * c2 - b2 * c1` (`line/mod.rs` line 162). -/
def lineNumX (self other : Line) : Int :=
  lineB self * lineC other - lineB other * lineC self

/-- Numerator of the y coordinate: `a2 * c1 - a1 * c2` (`line/mod.rs` line 165). -/
def lineNumY (self other : Line) : Int :=
  lineA other * lineC self - lineA self * lineC other

/-- The rounding offset of `line/mod.rs` line 160:
`if denom < 0 { -denom / 2 } else { denom / 2 }`; Rust `/` on `i32` truncates
toward zero, which is `Int.tdiv`. -/
def roundOffset (denom : Int) : Int :=
  if denom < 0 then Int.tdiv (-denom) 2 else Int.tdiv denom 2

/-- The rounded division used at `line/mod.rs` lines 158-166: the offset (half
of `|denom|`) is added to the numerator when it is nonnegative and subtracted
when it is negative, before the truncating division. -/
def roundDiv (num denom : Int) : Int :=
  Int.tdiv (if num < 0 then num - roundOffset denom else num + roundOffset denom) denom

/-- Integer-only line segment intersection, from `line/mod.rs` lines 113-169.
Returns `none` when `denom = 0` (colinear/parallel), otherwise the rounded
intersection point of the two infinite lines together with the flag computed
at lines 152-153. -/
def Line.intersection (self other : Line) : Option (Point × Bool) :=
  if lineDenom self other = 0 then
    none
  else
    some (⟨roundDiv (lineNumX self other) (lineDenom self other),
           roundDiv (lineNumY self other) (lineDenom self other)⟩,
      isOnSegments self other)

-- Sanity checks against the spec examples.
example : Line.intersection ⟨⟨0, 0⟩, ⟨10, 0⟩⟩ ⟨⟨0, 5⟩, ⟨10, 5⟩⟩ = none := by decide

example :
    (Line.intersection ⟨⟨0, 0⟩, ⟨10, 10⟩⟩ ⟨⟨0, 10⟩, ⟨10, 0⟩⟩).map Prod.fst =
      some ⟨5, 5⟩ := by decide

/-- C2: `Line::intersection` returns `None` exactly when
`denom = a1*b2 - a2*b1` is zero; colinearity/parallelism is this ordinary
`None` outcome of a total function, never a panic. -/
theorem intersection_none_iff_denom_zero (self other : Line) :
    self.intersection other = none ↔ lineDenom self other = 0 := by
  unfold Line.intersection
  by_cases h : lineDenom self other = 0 <;> simp [h]

/-- C1: evaluation of the code at the crossing from the spec. The two diagonals
of the `10 x 10` square intersect at `(5, 5)` inside both segments, but the
flag returned by the code is `false`: lines 152-153 compute the disjunction of
the two "both endpoints strictly on the same side" tests, which is the
DONT_INTERSECT condition of the cited xlines.c algorithm, the opposite of what
the doc comment at lines 107-109 promises. -/
theorem intersection_flag_false_at_crossing :
    Line.intersection ⟨⟨0, 0⟩, ⟨10, 10⟩⟩ ⟨⟨0, 10⟩, ⟨10, 0⟩⟩ =
      some (⟨5, 5⟩, false) := by decide

/-! ### The rounding rule: half away from zero -/

theorem roundOffset_eq_abs (d : Int) : roundOffset d = Int.tdiv |d| 2 := by
  unfold roundOffset
  by_cases h : d < 0
  · rw [if_pos h, abs_of_neg h]
  · rw [if_neg h, abs_of_nonneg (by omega)]

theorem roundOffset_neg (d : Int) : roundOffset (-d) = roundOffset d := by
  rw [roundOffset_eq_abs, roundOffset_eq_abs, abs_neg]

theorem roundOffset_nonneg (d : Int) : 0 ≤ roundOffset d := by
  rw [roundOffset_eq_abs]
  exact Int.tdiv_nonneg (abs_nonneg d) (by norm_num)

theorem roundOffset_lt_abs (d : Int) (hd : d ≠ 0) : roundOffset d < |d| := by
  rw [roundOffset_eq_abs, Int.tdiv_eq_ediv (abs_nonneg d) (by norm_num)]
  have h1 : 0 < |d| := abs_pos.mpr hd
  set n : Int := |d| with hn
  omega

theorem roundOffset_tdiv_self (d : Int) (hd : d ≠ 0) :
    Int.tdiv (roundOffset d) d = 0 := by
  rcases lt_trichotomy d 0 with h | h | h
  · have h2 : Int.tdiv (roundOffset d) (-d) = 0 := by
      rw [Int.tdiv_eq_ediv (roundOffset_nonneg d) (by omega)]
      apply Int.ediv_eq_zero_of_lt (roundOffset_nonneg d)
      have h3 := roundOffset_lt_abs d hd
      rwa [abs_of_neg h] at h3
    have h4 : Int.tdiv (roundOffset d) d = -Int.tdiv (roundOffset d) (-d) := by
      rw [← Int.tdiv_neg, neg_neg]
    rw [h4, h2, neg_zero]
  · exact absurd h hd
  · rw [Int.tdiv_eq_ediv (roundOffset_nonneg d) (by omega)]
    apply Int.ediv_eq_zero_of_lt (roundOffset_nonneg d)
    have h3 := roundOffset_lt_abs d hd
    rwa [abs_of_pos h] at h3

theorem roundDiv_neg_left (n d : Int) (hd : d ≠ 0) :
    roundDiv (-n) d = -roundDiv n d := by
  unfold roundDiv
  rcases lt_trichotomy n 0 with h | h | h
  · rw [if_neg (by omega : ¬ -n < 0), if_pos h,
      show -n + roundOffset d = -(n - roundOffset d) by ring, Int.neg_tdiv]
  · subst h
    rw [if_neg (by omega : ¬ -(0:Int) < 0), if_neg (by omega : ¬ (0:Int) < 0)]
    simp [roundOffset_tdiv_self d hd]
  · rw [if_pos (by omega : -n < 0), if_neg (by omega : ¬ n < 0),
      show -n - roundOffset d = -(n + roundOffset d) by ring, Int.neg_tdiv]

theorem roundDiv_neg_right (n d : Int) : roundDiv n (-d) = -roundDiv n d := by
  unfold roundDiv
  rw [roundOffset_neg]
  by_cases h : n < 0
  · rw [if_pos h, Int.tdiv_neg]
  · rw [if_neg h, Int.tdiv_neg]

theorem roundDiv_neg_neg (n d : Int) (hd : d ≠ 0) :
    roundDiv (-n) (-d) = roundDiv n d := by
  rw [roundDiv_neg_right, roundDiv_neg_left n d hd, neg_neg]

theorem ediv_eq_of_decomp (a b q r : Int) (hb : 0 < b) (h : a = b * q + r)
    (h0 : 0 ≤ r) (h1 : r < b) : a / b = q := by
  subst h
  rw [add_comm, Int.add_mul_ediv_left r q (by omega : b ≠ 0),
    Int.ediv_eq_zero_of_lt h0 h1, zero_add]

theorem roundDiv_core (num den : Int) (hn : 0 ≤ num) (hd : 0 < den) :
    roundDiv num den = ⌊(num : ℚ) / (den : ℚ) + 1 / 2⌋ := by
  have hlhs : roundDiv num den = (num + den / 2) / den := by
    unfold roundDiv roundOffset
    rw [if_neg (by omega : ¬ num < 0), if_neg (by omega : ¬ den < 0),
      Int.tdiv_eq_ediv (by omega : (0:Int) ≤ den) (by norm_num)]
    exact Int.tdiv_eq_ediv (by omega) (by omega)
  have hden2 : ((2 * den).toNat : Int) = 2 * den := Int.toNat_of_nonneg (by omega)
  have hfloor : ⌊(num : ℚ) / (den : ℚ) + 1 / 2⌋ = (2 * num + den) / (2 * den) := by
    have hcast : (((2 * den).toNat : ℕ) : ℚ) = ((2 * den : Int) : ℚ) := by
      exact_mod_cast hden2
    have hdQ : (den : ℚ) ≠ 0 := by exact_mod_cast (by omega : den ≠ 0)
    have h1 : (num : ℚ) / (den : ℚ) + 1 / 2 =
        ((2 * num + den : Int) : ℚ) / (((2 * den).toNat : ℕ) : ℚ) := by
      rw [hcast]
      push_cast
      field_simp
      ring
    rw [h1, Rat.floor_intCast_div_natCast, hden2]
  rw [hlhs, hfloor]
  have hdecomp : den * ((num + den / 2) / den) + (num + den / 2) % den
      = num + den / 2 := Int.ediv_add_emod _ _
  have hr0 : 0 ≤ (num + den / 2) % den := Int.emod_nonneg _ (by omega)
  have hr1 : (num + den / 2) % den < den := Int.emod_lt_of_pos _ hd
  symm
  apply ediv_eq_of_decomp (2 * num + den) (2 * den) _
    (2 * ((num + den / 2) % den) + den % 2) (by omega)
  · have hden : 2 * (den / 2) + den % 2 = den := by omega
    linear_combination (-2 : Int) * hdecomp - hden
  · omega
  · omega

/-- Rounding a rational to the nearest integer, ties rounded half away from
zero. This definition follows the words of the spec (section 4.3), to be
compared with the offset-and-truncate computation of the source. -/
def roundHalfAwayQ (q : ℚ) : Int :=
  if 0 ≤ q then ⌊q + 1 / 2⌋ else ⌈q - 1 / 2⌉

theorem roundHalfAwayQ_neg (q : ℚ) : roundHalfAwayQ (-q) = -roundHalfAwayQ q := by
  unfold roundHalfAwayQ
  rcases lt_trichotomy q 0 with h | h | h
  · rw [if_pos (by linarith), if_neg (by linarith),
      show -q + 1 / 2 = -(q - 1 / 2) by ring, Int.floor_neg]
  · subst h
    rw [neg_zero, if_pos le_rfl]
    have hhalf : ⌊(0:ℚ) + 1 / 2⌋ = 0 := by
      rw [Int.floor_eq_iff]
      constructor <;> norm_num
    rw [hhalf]
    omega
  · rw [if_neg (by linarith), if_pos (by linarith),
      show -q - 1 / 2 = -(q + 1 / 2) by ring, Int.ceil_neg]

theorem roundDiv_eq_half_away_pos (num den : Int) (hd : 0 < den) :
    roundDiv num den = roundHalfAwayQ ((num : ℚ) / (den : ℚ)) := by
  rcases le_or_lt 0 num with hn | hn
  · rw [roundDiv_core num den hn hd]
    unfold roundHalfAwayQ
    rw [if_pos (div_nonneg (by exact_mod_cast hn) (by exact_mod_cast hd.le))]
  · have h1 : roundDiv num den = -roundDiv (-num) den := by
      have h2 := roundDiv_neg_left (-num) den (by omega)
      rw [neg_neg] at h2
      rw [h2]
    have h3 : roundHalfAwayQ ((num : ℚ) / (den : ℚ)) =
        -roundHalfAwayQ (((-num : Int) : ℚ) / (den : ℚ)) := by
      rw [show (((-num : Int)) : ℚ) / (den : ℚ) = -((num : ℚ) / (den : ℚ)) by
        push_cast; ring]
      rw [roundHalfAwayQ_neg, neg_neg]
    rw [h1, h3]
    congr 1
    rw [roundDiv_core (-num) den (by omega) hd]
    unfold roundHalfAwayQ
    rw [if_pos (div_nonneg (by exact_mod_cast (by omega : (0:Int) ≤ -num))
      (by exact_mod_cast hd.le))]

theorem roundDiv_eq_half_away (num den : Int) (hd : den ≠ 0) :
    roundDiv num den = roundHalfAwayQ ((num : ℚ) / (den : ℚ)) := by
  rcases lt_or_gt_of_ne hd with hneg | hpos
  · have h1 := roundDiv_neg_right num (-den)
    rw [neg_neg] at h1
    rw [h1, roundDiv_eq_half_away_pos num (-den) (by omega)]
    rw [show (((-den : Int)) : ℚ) = -(den : ℚ) by push_cast; ring,
      div_neg, roundHalfAwayQ_neg, neg_neg]
  · exact roundDiv_eq_half_away_pos num den hpos

/-- C3: for non-parallel lines the returned point is, coordinate-wise, the
exact rational `num/denom` rounded to the nearest integer with ties rounded
half away from zero, with `num = b1*c2 - b2*c1` for x and `a2*c1 - a1*c2` for
y, and `a = y2-y1`, `b = x1-x2`, `c = x2*y1 - x1*y2` for each line. -/
theorem intersection_point_rounds_half_away (self other : Line)
    (h : lineDenom self other ≠ 0) :
    self.intersection other =
      some (⟨roundHalfAwayQ ((lineNumX self other : ℚ) / (lineDenom self other : ℚ)),
             roundHalfAwayQ ((lineNumY self other : ℚ) / (lineDenom self other : ℚ))⟩,
        isOnSegments self other) := by
  unfold Line.intersection
  rw [if_neg h, roundDiv_eq_half_away _ _ h, roundDiv_eq_half_away _ _ h]

/-- Witness for C3 at the crossing diagonals of a `10 x 10` square. -/
theorem intersection_point_rounds_half_away_witness :
    lineDenom ⟨⟨0, 0⟩, ⟨10, 10⟩⟩ ⟨⟨0, 10⟩, ⟨10, 0⟩⟩ ≠ 0 ∧
    Line.intersection ⟨⟨0, 0⟩, ⟨10, 10⟩⟩ ⟨⟨0, 10⟩, ⟨10, 0⟩⟩ =
      some (⟨roundHalfAwayQ ((lineNumX ⟨⟨0, 0⟩, ⟨10, 10⟩⟩ ⟨⟨0, 10⟩, ⟨10, 0⟩⟩ : ℚ) /
               (lineDenom ⟨⟨0, 0⟩, ⟨10, 10⟩⟩ ⟨⟨0, 10⟩, ⟨10, 0⟩⟩ : ℚ)),
             roundHalfAwayQ ((lineNumY ⟨⟨0, 0⟩, ⟨10, 10⟩⟩ ⟨⟨0, 10⟩, ⟨10, 0⟩⟩ : ℚ) /
               (lineDenom ⟨⟨0, 0⟩, ⟨10, 10⟩⟩ ⟨⟨0, 10⟩, ⟨10, 0⟩⟩ : ℚ))⟩,
        isOnSegments ⟨⟨0, 0⟩, ⟨10, 10⟩⟩ ⟨⟨0, 10⟩, ⟨10, 0⟩⟩) :=
  ⟨by decide, intersection_point_rounds_half_away _ _ (by decide)⟩

/-! ### Symmetry of the intersection -/

theorem lineDenom_swap (s o : Line) : lineDenom o s = -lineDenom s o := by
  unfold lineDenom
  ring

theorem lineNumX_swap (s o : Line) : lineNumX o s = -lineNumX s o := by
  unfold lineNumX
  ring

theorem lineNumY_swap (s o : Line) : lineNumY o s = -lineNumY s o := by
  unfold lineNumY
  ring

theorem isOnSegments_swap (s o : Line) : isOnSegments o s = isOnSegments s o := by
  unfold isOnSegments
  exact Bool.or_comm _ _

/-- C9: `Line::intersection` is symmetric in its two arguments: swapping the
lines negates the three cross products (denominator and both numerators) and
swaps the two disjuncts of the flag, leaving the returned value unchanged. -/
theorem intersection_symm (a b : Line) : a.intersection b = b.intersection a := by
  unfold Line.intersection
  by_cases h : lineDenom a b = 0
  · rw [if_pos h, if_pos (by rw [lineDenom_swap]; omega)]
  · rw [if_neg h, if_neg (by rw [lineDenom_swap]; omega)]
    have hx : roundDiv (lineNumX b a) (lineDenom b a) =
        roundDiv (lineNumX a b) (lineDenom a b) := by
      rw [lineNumX_swap, lineDenom_swap]
      exact roundDiv_neg_neg _ _ h
    have hy : roundDiv (lineNumY b a) (lineDenom b a) =
        roundDiv (lineNumY a b) (lineDenom a b) := by
      rw [lineNumY_swap, lineDenom_swap]
      exact roundDiv_neg_neg _ _ h
    rw [hx, hy, isOnSegments_swap]

/-! ### Bresenham stepper (spec-modelled: `bresenham.rs` and `points.rs` are
not among the sources, only their callers and the design document) -/

/-- Modelled from the spec: `BresenhamParameters` of the missing
`bresenham.rs`. Section 4.1: the major axis is the axis with the larger
absolute delta, each axis advances in the sign of `end - start` on that axis,
and the error steps are twice the absolute deltas. -/
structure BresenhamParameters where
  majorAbs : Int
  minorAbs : Int
  majorStep : Point
  minorStep : Point
deriving DecidableEq, Repr

/-- Modelled from the spec (section 4.1): parameters of a line, fixed once at
construction. -/
def bresParams (l : Line) : BresenhamParameters :=
  if |l.«end».y - l.start.y| > |l.«end».x - l.start.x| then
    { majorAbs := |l.«end».y - l.start.y|, minorAbs := |l.«end».x - l.start.x|,
      majorStep := ⟨0, Int.sign (l.«end».y - l.start.y)⟩,
      minorStep := ⟨Int.sign (l.«end».x - l.start.x), 0⟩ }
  else
    { majorAbs := |l.«end».x - l.start.x|, minorAbs := |l.«end».y - l.start.y|,
      majorStep := ⟨Int.sign (l.«end».x - l.start.x), 0⟩,
      minorStep := ⟨0, Int.sign (l.«end».y - l.start.y)⟩ }

/-- Modelled from the spec: the `Bresenham` state of the missing
`bresenham.rs`: current point plus error accumulator.
`Bresenham::with_initial_error` is the plain constructor. -/
structure Bresenham where
  point : Point
  error : Int
deriving DecidableEq, Repr

/-- Modelled from the spec (section 4.1): one step of the stepper. The major
axis always advances by its sign; the error grows by `2 * minor_delta` and
when it crosses the threshold the minor axis also advances by its sign and the
error is corrected by subtracting `2 * major_delta`. -/
def bresStep (p : BresenhamParameters) (s : Bresenham) : Bresenham :=
  if p.majorAbs < s.error + 2 * p.minorAbs then
    ⟨s.point + p.majorStep + p.minorStep, s.error + 2 * p.minorAbs - 2 * p.majorAbs⟩
  else
    ⟨s.point + p.majorStep, s.error + 2 * p.minorAbs⟩

/-- Modelled from the spec: `bresenham::major_length`, the absolute delta along
the major axis (the full traversal then has `major_length + 1` points). -/
def major_length (l : Line) : Int :=
  max |l.«end».x - l.start.x| |l.«end».y - l.start.y|

/-- The start point followed by one point per step. -/
def bresRun (p : BresenhamParameters) : Nat → Bresenham → List Point
  | 0, b => [b.point]
  | n + 1, b => b.point :: bresRun p n (bresStep p b)

/-- Modelled from the spec: the full traversal of a line by the stepper (the
`Points` iterator of the missing `points.rs`), `major_length` steps after the
start point. -/
def linePoints (l : Line) : List Point :=
  bresRun (bresParams l) (major_length l).toNat ⟨l.start, 0⟩

/-- The coordinate on the minor axis selected by `bresParams`. -/
def minorCoord (l : Line) (p : Point) : Int :=
  if |l.«end».y - l.start.y| > |l.«end».x - l.start.x| then p.x else p.y

theorem sign_natAbs_le_one (a : Int) : (Int.sign a).natAbs ≤ 1 := by
  rcases a with (_ | n) | n <;> simp [Int.sign]

theorem bresRun_length (p : BresenhamParameters) :
    ∀ (n : Nat) (b : Bresenham), (bresRun p n b).length = n + 1 := by
  intro n
  induction n with
  | zero => intro b; rfl
  | succ k ih =>
      intro b
      rw [bresRun, List.length_cons, ih (bresStep p b)]

theorem bresRun_head (p : BresenhamParameters) (n : Nat) (b : Bresenham) :
    (bresRun p n b).head? = some b.point := by
  cases n <;> rfl

theorem bresRun_chain (p : BresenhamParameters) (R : Point → Point → Prop)
    (hR : ∀ b : Bresenham, R b.point (bresStep p b).point) :
    ∀ (n : Nat) (b : Bresenham), List.Chain' R (bresRun p n b) := by
  intro n
  induction n with
  | zero => intro b; simp [bresRun]
  | succ k ih =>
      intro b
      rw [bresRun]
      have hh := bresRun_head p k (bresStep p b)
      have hc := ih (bresStep p b)
      cases hl : bresRun p k (bresStep p b) with
      | nil => simp
      | cons a t =>
          rw [hl] at hh hc
          simp only [List.head?_cons, Option.some.injEq] at hh
          rw [List.chain'_cons]
          exact ⟨hh ▸ hR b, hc⟩

theorem minor_step_bound (l : Line) (b : Bresenham) :
    (minorCoord l (bresStep (bresParams l) b).point - minorCoord l b.point).natAbs ≤ 1 := by
  have hx := sign_natAbs_le_one (l.«end».x - l.start.x)
  have hy := sign_natAbs_le_one (l.«end».y - l.start.y)
  unfold bresStep bresParams minorCoord
  by_cases h : |l.«end».y - l.start.y| > |l.«end».x - l.start.x| <;>
    simp only [if_pos, if_neg, h, if_true, if_false, ite_true, ite_false] <;>
    split <;>
    simp only [Point.add_def] <;>
    omega

/-- C7 (spec-modelled): a full traversal of the Bresenham stepper produces
exactly `max(|dx|, |dy|) + 1` points, starting with the start point, and every
single step changes the minor-axis coordinate by 0 or plus/minus 1, never
more, in all eight octants. -/
theorem bresenham_point_count_and_minor_step (l : Line) :
    (linePoints l).length =
      max (l.«end».x - l.start.x).natAbs (l.«end».y - l.start.y).natAbs + 1 ∧
    (linePoints l).head? = some l.start ∧
    List.Chain' (fun p q => (minorCoord l q - minorCoord l p).natAbs ≤ 1)
      (linePoints l) := by
  refine ⟨?_, ?_, ?_⟩
  · rw [linePoints, bresRun_length]
    have h1 : |l.«end».x - l.start.x| = ((l.«end».x - l.start.x).natAbs : Int) :=
      Int.abs_eq_natAbs _
    have h2 : |l.«end».y - l.start.y| = ((l.«end».y - l.start.y).natAbs : Int) :=
      Int.abs_eq_natAbs _
    unfold major_length
    rw [h1, h2]
    omega
  · exact bresRun_head _ _ _
  · exact bresRun_chain _ _ (fun b => minor_step_bound l b) _ _

/-! ### Parallel-offset (extents) engine (`thick_points.rs` is not among the
sources; the iterator is spec-modelled, `Line::extents` itself is translated
from `line/mod.rs` lines 172-256) -/

/-- Side tag, from `thick_points::Side` (spec data model section 3). -/
inductive Side where
  | left
  | right
deriving DecidableEq, Repr

/-- Returns a perpendicular line, from `line/mod.rs` lines 84-93: rotated 90
degree counter clockwise, sharing the start point with the original line. -/
def Line.perpendicular (l : Line) : Line :=
  ⟨l.start, l.start + ⟨(l.«end» - l.start).y, -(l.«end» - l.start).x⟩⟩

/-- Per-side search state of the parallels iterator: the perpendicular walk
cursor, the accumulated perpendicular (thickness) error of that side, and the
number of major-axis steps lost to the perpendicular offset so far. -/
structure SideState where
  cursor : Bresenham
  acc : Int
  red : Int
deriving DecidableEq, Repr

/-- Modelled from the spec: the `ParallelsIterator` of the missing
`thick_points.rs`. Spec section 4.2: it alternates stepping a cursor
perpendicular to the line on the Left and then the Right side, accumulating
perpendicular error on each side independently against the threshold
`4 * thickness^2 * (dx^2 + dy^2)`; the draft kept in `line/mod.rs` lines
173-188 supplies the initial accumulator
`(error_step.minor + error_step.major) / 2` and the error-step magnitudes
(twice the deltas of the parallel parameters). -/
structure ParallelsIterator where
  parallel_parameters : BresenhamParameters
  perpLeft : BresenhamParameters
  perpRight : BresenhamParameters
  threshold : Int
  left : SideState
  right : SideState
  nextSide : Side
deriving DecidableEq, Repr

/-- Modelled from the spec: construction of the parallels iterator for a line
and a thickness. The left side walks along `Line::perpendicular`, the right
side along the opposite direction. -/
def ParallelsIterator.new (l : Line) (thickness : Int) : ParallelsIterator :=
  { parallel_parameters := bresParams l
  , perpLeft := bresParams l.perpendicular
  , perpRight :=
      bresParams ⟨l.start, l.start - ⟨(l.«end» - l.start).y, -(l.«end» - l.start).x⟩⟩
  , threshold := 4 * thickness ^ 2 *
      ((l.«end».x - l.start.x) ^ 2 + (l.«end».y - l.start.y) ^ 2)
  , left := ⟨⟨l.start, 0⟩,
      Int.tdiv (2 * (bresParams l).minorAbs + 2 * (bresParams l).majorAbs) 2, 0⟩
  , right := ⟨⟨l.start, 0⟩,
      Int.tdiv (2 * (bresParams l).minorAbs + 2 * (bresParams l).majorAbs) 2, 0⟩
  , nextSide := Side.left }

/-- Modelled from the spec: one perpendicular step of one side. The cursor
takes one Bresenham step along the perpendicular direction; the side
accumulates the parallel error steps (`2 * major`, plus `2 * minor` when the
perpendicular walk took a diagonal step), and a diagonal walk loses one
major-axis step of projected length. -/
def sideAdvance (perp pp : BresenhamParameters) (s : SideState) : SideState :=
  if perp.majorAbs < s.cursor.error + 2 * perp.minorAbs then
    ⟨bresStep perp s.cursor, s.acc + 2 * pp.majorAbs + 2 * pp.minorAbs, s.red + 1⟩
  else
    ⟨bresStep perp s.cursor, s.acc + 2 * pp.majorAbs, s.red⟩

/-- Modelled from the spec: one `next()` of the parallels iterator. A side is
finished once its accumulated error exceeds the threshold
(`thickness_accumulator.pow(2) <= thickness_threshold` is the continuation
condition of the draft); the sides alternate, and when one side is finished
the other continues alone. Each yielded item is the fresh Bresenham stepper
for that parallel, seeded at the found point with zero error, together with
the length reduction and the side. -/
def ParallelsIterator.next (it : ParallelsIterator) :
    Option ((Bresenham × Int × Side) × ParallelsIterator) :=
  match it.nextSide with
  | Side.left =>
      if it.left.acc ^ 2 ≤ it.threshold then
        let s := sideAdvance it.perpLeft it.parallel_parameters it.left
        some ((⟨s.cursor.point, 0⟩, s.red, Side.left),
          { it with left := s, nextSide := Side.right })
      else if it.right.acc ^ 2 ≤ it.threshold then
        let s := sideAdvance it.perpRight it.parallel_parameters it.right
        some ((⟨s.cursor.point, 0⟩, s.red, Side.right),
          { it with right := s, nextSide := Side.left })
      else none
  | Side.right =>
      if it.right.acc ^ 2 ≤ it.threshold then
        let s := sideAdvance it.perpRight it.parallel_parameters it.right
        some ((⟨s.cursor.point, 0⟩, s.red, Side.right),
          { it with right := s, nextSide := Side.left })
      else if it.left.acc ^ 2 ≤ it.threshold then
        let s := sideAdvance it.perpLeft it.parallel_parameters it.left
        some ((⟨s.cursor.point, 0⟩, s.red, Side.left),
          { it with left := s, nextSide := Side.right })
      else none

/-- The finite list of items produced by the iterator, bounded by fuel (the
search is bounded: each yield grows the accumulator of its side). -/
def parItems : Nat → ParallelsIterator → List (Bresenham × Int × Side)
  | 0, _ => []
  | n + 1, it =>
      match it.next with
      | none => []
      | some (item, it2) => item :: parItems n it2

/-- The mutable locals of the `while let` loop of `Line::extents`
(`line/mod.rs` lines 192-213). -/
structure ExtState where
  start_l : Point
  bres_l : Bresenham
  par_points_l : Int
  start_r : Point
  bres_r : Bresenham
  par_points_r : Int
deriving DecidableEq, Repr

/-- One iteration of the `while let` loop body (`line/mod.rs` lines 201-212):
the yielded item overwrites the three locals of its side. -/
def applyItem (len : Int) (st : ExtState) : Bresenham × Int × Side → ExtState
  | (bres, reduction, Side.left) =>
      ⟨bres.point, bres, len - reduction, st.start_r, st.bres_r, st.par_points_r⟩
  | (bres, reduction, Side.right) =>
      ⟨st.start_l, st.bres_l, st.par_points_l, bres.point, bres, len - reduction⟩

/-- The `while let` loop of `line/mod.rs` lines 200-213. -/
def extLoop (len : Int) : List (Bresenham × Int × Side) → ExtState → ExtState
  | [], st => st
  | item :: rest, st => extLoop len rest (applyItem len st item)

/-- The `for _ in 0..par_points` loops of `line/mod.rs` lines 218-224: advance
the stepper `n` times and return the last point produced (or the default
`self.end` when the loop body never runs, including for nonpositive counts). -/
def runSteps (p : BresenhamParameters) : Bresenham → Nat → Point → Point
  | _, 0, res => res
  | b, n + 1, _ => runSteps p (bresStep p b) n (bresStep p b).point

/-- Get two lines representing the left and right edges of the thick line,
translated from `line/mod.rs` lines 172-256 (the live code, not the
commented-out draft). -/
def Line.extents (l : Line) (thickness : Int) : Line × Line :=
  let it := ParallelsIterator.new l thickness
  let items := parItems (it.threshold.toNat + 1) it
  let st := extLoop (major_length l) items
    ⟨l.start, ⟨l.start, 0⟩, 0, l.start, ⟨l.start, 0⟩, 0⟩
  let end_l := runSteps it.parallel_parameters st.bres_l st.par_points_l.toNat l.«end»
  let end_r := runSteps it.parallel_parameters st.bres_r st.par_points_r.toNat l.«end»
  (⟨st.start_l, end_l⟩, ⟨st.start_r, end_r⟩)

/-! ### Thickness zero gives back the center line -/

theorem bresParams_deg (s : Point) :
    bresParams ⟨s, s⟩ = ⟨0, 0, ⟨0, 0⟩, ⟨0, 0⟩⟩ := by
  unfold bresParams
  simp [sub_self]

/-- The degenerate-line parallels iterator, up to the side whose turn is next. -/
def degIt (s : Point) (side : Side) : ParallelsIterator :=
  ⟨⟨0, 0, ⟨0, 0⟩, ⟨0, 0⟩⟩, ⟨0, 0, ⟨0, 0⟩, ⟨0, 0⟩⟩, ⟨0, 0, ⟨0, 0⟩, ⟨0, 0⟩⟩, 0,
   ⟨⟨s, 0⟩, 0, 0⟩, ⟨⟨s, 0⟩, 0, 0⟩, side⟩

theorem perpendicular_deg (s : Point) : Line.perpendicular ⟨s, s⟩ = ⟨s, s⟩ := by
  unfold Line.perpendicular
  simp [Point.sub_def, Point.add_def, sub_self]

theorem new_deg (s : Point) :
    ParallelsIterator.new ⟨s, s⟩ 0 = degIt s Side.left := by
  unfold ParallelsIterator.new degIt
  rw [perpendicular_deg, bresParams_deg]
  simp [Point.sub_def, Point.add_def, sub_self]
  exact bresParams_deg s

theorem Side.other_def (side : Side) :
    (match side with | Side.left => Side.right | Side.right => Side.left) =
      (if side = Side.left then Side.right else Side.left) := by
  cases side <;> rfl

theorem degIt_next (s : Point) (side : Side) :
    (degIt s side).next = some ((⟨s, 0⟩, 0, side),
      degIt s (if side = Side.left then Side.right else Side.left)) := by
  cases side <;>
    simp [degIt, ParallelsIterator.next, sideAdvance, bresStep, Point.add_def]

theorem deg_extLoop (s : Point) :
    ∀ (n : Nat) (side : Side),
      extLoop 0 (parItems n (degIt s side)) ⟨s, ⟨s, 0⟩, 0, s, ⟨s, 0⟩, 0⟩ =
        ⟨s, ⟨s, 0⟩, 0, s, ⟨s, 0⟩, 0⟩ := by
  intro n
  induction n with
  | zero => intro side; rfl
  | succ k ih =>
      intro side
      simp only [parItems, degIt_next]
      rw [extLoop]
      have happ : applyItem 0 ⟨s, ⟨s, 0⟩, 0, s, ⟨s, 0⟩, 0⟩ (⟨s, 0⟩, 0, side) =
          ⟨s, ⟨s, 0⟩, 0, s, ⟨s, 0⟩, 0⟩ := by
        cases side <;> simp [applyItem]
      rw [happ]
      exact ih _

theorem new_next_none (l : Line) (h : l.«end» ≠ l.start) :
    (ParallelsIterator.new l 0).next = none := by
  have hsum : (bresParams l).minorAbs + (bresParams l).majorAbs =
      |l.«end».x - l.start.x| + |l.«end».y - l.start.y| := by
    unfold bresParams
    split <;> simp [add_comm]
  have hpos : 0 < |l.«end».x - l.start.x| + |l.«end».y - l.start.y| := by
    obtain ⟨⟨sx, sy⟩, ⟨ex, ey⟩⟩ := l
    simp only [ne_eq, Point.mk.injEq, not_and] at h
    simp only []
    rw [Int.abs_eq_natAbs, Int.abs_eq_natAbs]
    omega
  have hacc : (ParallelsIterator.new l 0).left.acc =
      (bresParams l).minorAbs + (bresParams l).majorAbs := by
    unfold ParallelsIterator.new
    simp only []
    rw [show 2 * (bresParams l).minorAbs + 2 * (bresParams l).majorAbs =
      2 * ((bresParams l).minorAbs + (bresParams l).majorAbs) by ring]
    exact Int.mul_tdiv_cancel_left _ (by norm_num)
  have haccr : (ParallelsIterator.new l 0).right.acc =
      (ParallelsIterator.new l 0).left.acc := rfl
  have hth : (ParallelsIterator.new l 0).threshold = 0 := by
    unfold ParallelsIterator.new
    simp
  have hside : (ParallelsIterator.new l 0).nextSide = Side.left := rfl
  have haccpos : 0 < (ParallelsIterator.new l 0).left.acc := by
    rw [hacc, hsum]; exact hpos
  have hsq : ¬ ((ParallelsIterator.new l 0).left.acc ^ 2 ≤
      (ParallelsIterator.new l 0).threshold) := by
    rw [hth]
    nlinarith [haccpos]
  unfold ParallelsIterator.next
  rw [hside]
  rw [if_neg hsq, if_neg (by rw [haccr]; exact hsq)]

/-- C6 (spec-modelled iterator): for every Line, `extents` with thickness 0
returns two boundary lines both equal to the center line itself. -/
theorem extents_zero_thickness (l : Line) : l.extents 0 = (l, l) := by
  by_cases h : l.«end» = l.start
  · obtain ⟨ls, le⟩ := l
    simp only [] at h
    subst h
    unfold Line.extents
    rw [new_deg]
    have hml : major_length ⟨le, le⟩ = 0 := by
      unfold major_length
      simp [sub_self]
    simp only [hml]
    have hth : (degIt le Side.left).threshold = 0 := rfl
    rw [hth]
    rw [show (0 : Int).toNat + 1 = 1 by rfl]
    rw [deg_extLoop le 1 Side.left]
    rfl
  · unfold Line.extents
    have hnone := new_next_none l h
    simp only [parItems, hnone]
    rfl

/-! ### Joint builder (the `corner` function of
`simulator/examples/line-joints.rs`; its helpers `line_intersection`,
`segment_intersection`, the alignment-aware `extents` and the scalar
`length_squared` belong to a revision of the line module that is not among
the sources and are spec-modelled) -/

/-- Stroke alignment, from spec section 6. -/
inductive StrokeAlignment where
  | center
  | inside
  | outside
deriving DecidableEq, Repr

/-- Triangle primitive (only its three corner points are needed here). -/
structure Triangle where
  p1 : Point
  p2 : Point
  p3 : Point
deriving DecidableEq, Repr

/-- Joint kind, from `line-joints.rs` lines 42-49. -/
inductive JointKind where
  | miter
  | bevel (filler_triangle : Triangle)
  | degenerate (filler_triangle : Triangle)
  | colinear
  | startOrEnd
deriving DecidableEq, Repr

/-- Corners of a thick segment boundary at a joint, `line-joints.rs` lines 64-68. -/
structure EdgeCorners where
  left : Point
  right : Point
deriving DecidableEq, Repr

/-- A joint, `line-joints.rs` lines 70-75. -/
structure Joint where
  kind : JointKind
  first_edge_end : EdgeCorners
  second_edge_start : EdgeCorners
deriving DecidableEq, Repr

/-- Get the squared length of the line, from `line/mod.rs` lines 258-264:
the componentwise `Size::new(delta.x.pow(2) as u32, delta.y.pow(2) as u32)`
(squaring is always nonnegative, so the `as u32` casts are the identity). -/
def Line.length_squared (l : Line) : Size :=
  ⟨(l.«end».x - l.start.x) ^ 2, (l.«end».y - l.start.y) ^ 2⟩

/-- Modelled from the spec: the scalar `length_squared` (a `u32`) used by the
joint example at `line-joints.rs` line 128 comes from a line-module revision
that is not among the sources; spec section 4.4 calls it the squared Euclidean
distance from the vertex to the intersection point. -/
def Line.length_squared_scalar (l : Line) : Nat :=
  ((l.«end».x - l.start.x) ^ 2 + (l.«end».y - l.start.y) ^ 2).toNat

/-- Modelled from the spec: `segment_intersection` (called at `line-joints.rs`
lines 121-125) is not among the sources. Spec section 4.3: the segments
intersect when there is a unique line intersection and neither pair of
endpoints lies strictly on the same side of the other line (touching counts
as intersecting). -/
def Line.segment_intersection (self other : Line) : Bool :=
  lineDenom self other != 0 &&
    !(bothOnSameSide self other) && !(bothOnSameSide other self)

/-- Modelled from the spec: the alignment-aware `extents` called at
`line-joints.rs` lines 101-103 is not among the sources. Spec section 4.2:
alignment only redistributes the per-side thickness and the engine itself is
told an effective thickness; modelled as the core engine applied to the given
width, independent of the alignment. -/
def Line.extents_aligned (l : Line) (width : Nat) (_alignment : StrokeAlignment) :
    Line × Line :=
  l.extents (width : Int)

/-- The joint builder, translated from `corner` at `line-joints.rs` lines
93-204. The example matches `Intersection::Point { point, .. }` from
`line_intersection`, which the `Option`-valued `Line::intersection` of the
line module models. -/
def corner (start mid «end» : Point) (width : Nat) (alignment : StrokeAlignment) :
    Joint :=
  let first_line : Line := ⟨start, mid⟩
  let second_line : Line := ⟨mid, «end»⟩
  let miter_limit := (width * 2) ^ 2
  let first_edge_left := (first_line.extents_aligned width alignment).1
  let first_edge_right := (first_line.extents_aligned width alignment).2
  let second_edge_left := (second_line.extents_aligned width alignment).1
  let second_edge_right := (second_line.extents_aligned width alignment).2
  match second_edge_left.intersection first_edge_left,
      second_edge_right.intersection first_edge_right with
  | some (l_intersection, _), some (r_intersection, _) =>
      let first_segment_start_edge : Line :=
        ⟨first_edge_left.start, first_edge_right.start⟩
      let second_segment_end_edge : Line :=
        ⟨second_edge_left.«end», second_edge_right.«end»⟩
      let self_intersection_l :=
        first_segment_start_edge.segment_intersection second_edge_left ||
          second_segment_end_edge.segment_intersection first_edge_left
      let self_intersection_r :=
        first_segment_start_edge.segment_intersection second_edge_right ||
          second_segment_end_edge.segment_intersection first_edge_right
      let miter_length_squared := (Line.mk mid l_intersection).length_squared_scalar
      if !self_intersection_r && !self_intersection_l then
        if miter_length_squared ≤ miter_limit then
          ⟨JointKind.miter, ⟨l_intersection, r_intersection⟩,
            ⟨l_intersection, r_intersection⟩⟩
        else
          ⟨JointKind.bevel ⟨first_edge_left.«end», second_edge_left.start, r_intersection⟩,
            ⟨first_edge_left.«end», r_intersection⟩,
            ⟨second_edge_left.start, r_intersection⟩⟩
      else
        ⟨JointKind.degenerate ⟨first_edge_left.«end», second_edge_left.start, mid⟩,
          ⟨first_edge_left.«end», first_edge_right.«end»⟩,
          ⟨second_edge_left.start, second_edge_right.start⟩⟩
  | _, _ =>
      ⟨JointKind.colinear,
        ⟨first_edge_left.«end», first_edge_right.«end»⟩,
        ⟨second_edge_left.start, second_edge_right.start⟩⟩

/-- C5 (spec-modelled dependencies): when the left boundary pair or the right
boundary pair of the two segments has no unique line intersection, the joint
is Colinear, the first edge ends at the first segment boundary end points and
the second edge starts at the second segment boundary start points. -/
theorem corner_colinear_of_no_intersection (start mid «end» : Point)
    (width : Nat) (alignment : StrokeAlignment)
    (h : ((Line.mk mid «end»).extents_aligned width alignment).1.intersection
           ((Line.mk start mid).extents_aligned width alignment).1 = none ∨
         ((Line.mk mid «end»).extents_aligned width alignment).2.intersection
           ((Line.mk start mid).extents_aligned width alignment).2 = none) :
    corner start mid «end» width alignment =
      ⟨JointKind.colinear,
        ⟨((Line.mk start mid).extents_aligned width alignment).1.«end»,
         ((Line.mk start mid).extents_aligned width alignment).2.«end»⟩,
        ⟨((Line.mk mid «end»).extents_aligned width alignment).1.start,
         ((Line.mk mid «end»).extents_aligned width alignment).2.start⟩⟩ := by
  simp only [corner]
  rcases h with h | h
  · rw [h]
  · cases hcase : ((Line.mk mid «end»).extents_aligned width alignment).1.intersection
        ((Line.mk start mid).extents_aligned width alignment).1 with
    | none => rfl
    | some v =>
        obtain ⟨p, b⟩ := v
        rw [h]

/-- Witness for C5: two collinear horizontal segments sharing the vertex
`(2, 0)`, width 1; the left boundary lines are parallel. -/
theorem corner_colinear_of_no_intersection_witness :
    (((Line.mk ⟨2, 0⟩ ⟨4, 0⟩).extents_aligned 1 StrokeAlignment.center).1.intersection
        ((Line.mk ⟨0, 0⟩ ⟨2, 0⟩).extents_aligned 1 StrokeAlignment.center).1 = none ∨
     ((Line.mk ⟨2, 0⟩ ⟨4, 0⟩).extents_aligned 1 StrokeAlignment.center).2.intersection
        ((Line.mk ⟨0, 0⟩ ⟨2, 0⟩).extents_aligned 1 StrokeAlignment.center).2 = none) ∧
    corner ⟨0, 0⟩ ⟨2, 0⟩ ⟨4, 0⟩ 1 StrokeAlignment.center =
      ⟨JointKind.colinear,
        ⟨((Line.mk ⟨0, 0⟩ ⟨2, 0⟩).extents_aligned 1 StrokeAlignment.center).1.«end»,
         ((Line.mk ⟨0, 0⟩ ⟨2, 0⟩).extents_aligned 1 StrokeAlignment.center).2.«end»⟩,
        ⟨((Line.mk ⟨2, 0⟩ ⟨4, 0⟩).extents_aligned 1 StrokeAlignment.center).1.start,
         ((Line.mk ⟨2, 0⟩ ⟨4, 0⟩).extents_aligned 1 StrokeAlignment.center).2.start⟩⟩ :=
  ⟨Or.inl (by decide),
   corner_colinear_of_no_intersection ⟨0, 0⟩ ⟨2, 0⟩ ⟨4, 0⟩ 1 StrokeAlignment.center
     (Or.inl (by decide))⟩

/-- C4 (spec-modelled dependencies): when both boundary pairs intersect
uniquely and no self-intersection is detected, the joint is the Miter with
both corner pairs equal to the two intersection points exactly when the
squared distance from the vertex to the left intersection point is at most
`(2 * width)^2`; beyond the limit it is the Bevel with the filler triangle
(first left edge end, second left edge start, right intersection point) and
both corner pairs have the right intersection point as right corner. -/
theorem corner_miter_iff_within_limit (start mid «end» : Point)
    (width : Nat) (alignment : StrokeAlignment) (li ri : Point) (bl br : Bool)
    (hL : ((Line.mk mid «end»).extents_aligned width alignment).1.intersection
            ((Line.mk start mid).extents_aligned width alignment).1 = some (li, bl))
    (hR : ((Line.mk mid «end»).extents_aligned width alignment).2.intersection
            ((Line.mk start mid).extents_aligned width alignment).2 = some (ri, br))
    (hSl : ((Line.mk ((Line.mk start mid).extents_aligned width alignment).1.start
              ((Line.mk start mid).extents_aligned width alignment).2.start).segment_intersection
              ((Line.mk mid «end»).extents_aligned width alignment).1 ||
            (Line.mk ((Line.mk mid «end»).extents_aligned width alignment).1.«end»
              ((Line.mk mid «end»).extents_aligned width alignment).2.«end»).segment_intersection
              ((Line.mk start mid).extents_aligned width alignment).1) = false)
    (hSr : ((Line.mk ((Line.mk start mid).extents_aligned width alignment).1.start
              ((Line.mk start mid).extents_aligned width alignment).2.start).segment_intersection
              ((Line.mk mid «end»).extents_aligned width alignment).2 ||
            (Line.mk ((Line.mk mid «end»).extents_aligned width alignment).1.«end»
              ((Line.mk mid «end»).extents_aligned width alignment).2.«end»).segment_intersection
              ((Line.mk start mid).extents_aligned width alignment).2) = false) :
    (corner start mid «end» width alignment =
        ⟨JointKind.miter, ⟨li, ri⟩, ⟨li, ri⟩⟩ ↔
      (Line.mk mid li).length_squared_scalar ≤ (width * 2) ^ 2) ∧
    ((width * 2) ^ 2 < (Line.mk mid li).length_squared_scalar →
      corner start mid «end» width alignment =
        ⟨JointKind.bevel ⟨((Line.mk start mid).extents_aligned width alignment).1.«end»,
            ((Line.mk mid «end»).extents_aligned width alignment).1.start, ri⟩,
          ⟨((Line.mk start mid).extents_aligned width alignment).1.«end», ri⟩,
          ⟨((Line.mk mid «end»).extents_aligned width alignment).1.start, ri⟩⟩) := by
  simp only [corner]
  rw [hL, hR]
  simp only []
  rw [hSl, hSr]
  by_cases hm : (Line.mk mid li).length_squared_scalar ≤ (width * 2) ^ 2
  · rw [if_pos (by decide), if_pos hm]
    refine ⟨⟨fun _ => hm, fun _ => rfl⟩, fun hgt => absurd hm (by omega)⟩
  · rw [if_pos (by decide), if_neg hm]
    refine ⟨⟨fun heq => ?_, fun hle => absurd hle hm⟩, fun _ => rfl⟩
    exact absurd (congrArg Joint.kind heq) (by simp)

/-- Witness for C4: a right-angle corner of width 1; both boundary pairs
intersect, no self-intersection, and the miter is within the limit. -/
theorem corner_miter_iff_within_limit_witness :
    ((Line.mk ⟨4, 0⟩ ⟨4, 4⟩).extents_aligned 1 StrokeAlignment.center).1.intersection
        ((Line.mk ⟨0, 0⟩ ⟨4, 0⟩).extents_aligned 1 StrokeAlignment.center).1 =
      some (⟨5, -1⟩, true) ∧
    (corner ⟨0, 0⟩ ⟨4, 0⟩ ⟨4, 4⟩ 1 StrokeAlignment.center =
        ⟨JointKind.miter, ⟨⟨5, -1⟩, ⟨3, 1⟩⟩, ⟨⟨5, -1⟩, ⟨3, 1⟩⟩⟩ ↔
      (Line.mk ⟨4, 0⟩ ⟨5, -1⟩).length_squared_scalar ≤ (1 * 2) ^ 2) :=
  ⟨by decide,
   (corner_miter_iff_within_limit ⟨0, 0⟩ ⟨4, 0⟩ ⟨4, 4⟩ 1 StrokeAlignment.center
     ⟨5, -1⟩ ⟨3, 1⟩ true false (by decide) (by decide) (by decide) (by decide)).1⟩

/-! ### Bounding box -/

/-- Modelled from the spec: `Rectangle::with_corners` is not among the
sources. Spec section 3: the top-left corner takes the min per axis; the
`bounding_box` test kept in `line/mod.rs` (lines 320-336) fixes the size as
the absolute delta plus one per axis. -/
def Rectangle.with_corners (corner_1 corner_2 : Point) : Rectangle :=
  ⟨⟨min corner_1.x corner_2.x, min corner_1.y corner_2.y⟩,
   ⟨max corner_1.x corner_2.x - min corner_1.x corner_2.x + 1,
    max corner_1.y corner_2.y - min corner_1.y corner_2.y + 1⟩⟩

/-- `Dimensions::bounding_box` for `Line`, from `line/mod.rs` lines 65-69. -/
def Line.bounding_box (l : Line) : Rectangle :=
  Rectangle.with_corners l.start l.«end»

/-- The reversed line (start and end swapped), as used by the spec property
about order-independence of the bounding box. -/
def Line.reversed (l : Line) : Line := ⟨l.«end», l.start⟩

-- The bounding-box regression test kept in `line/mod.rs` lines 320-336.
example : (Line.mk ⟨10, 10⟩ ⟨19, 29⟩).bounding_box = ⟨⟨10, 10⟩, ⟨10, 20⟩⟩ := by decide

example : (Line.mk ⟨19, 29⟩ ⟨10, 10⟩).bounding_box = ⟨⟨10, 10⟩, ⟨10, 20⟩⟩ := by decide

/-- C8 (with spec-modelled `Rectangle::with_corners`): the bounding box of a
line equals the bounding box of the reversed line, and its width and height
are nonnegative regardless of the start/end ordering. -/
theorem bounding_box_reverse_and_nonneg (l : Line) :
    l.bounding_box = l.reversed.bounding_box ∧
    0 ≤ l.bounding_box.size.width ∧ 0 ≤ l.bounding_box.size.height := by
  unfold Line.bounding_box Line.reversed Rectangle.with_corners
  refine ⟨?_, ?_, ?_⟩
  · simp [min_comm, max_comm]
  · dsimp only
    omega
  · dsimp only
    omega

/-- C10: `length_squared` returns the componentwise pair of squared deltas
(a `Size`), not a scalar; both components are nonnegative squares. -/
theorem length_squared_componentwise (l : Line) :
    l.length_squared =
      ⟨(l.«end».x - l.start.x) ^ 2, (l.«end».y - l.start.y) ^ 2⟩ ∧
    0 ≤ l.length_squared.width ∧ 0 ≤ l.length_squared.height := by
  exact ⟨rfl, sq_nonneg _, sq_nonneg _⟩
